import Mathlib

/-!
Verification of the ornament-realization engine of music21's
`expressions.py` (mordents, trills, turns, appoggiaturas, tremolos).

The embedding models quarter lengths as exact rationals (music21 stores
them as floats normalised through `opFrac`, which is exact-fraction
arithmetic), pitches as (letter step, octave, optional accidental alter),
key signatures by their sharp count, and intervals by their signed generic
and chromatic sizes.  The external collaborators (pitch, interval, key)
are reduced to exactly the operations the ornament engine calls.
The context search `getContextByClass(key.KeySignature)` is modelled as an
explicit `ctxKS` argument on every operation that performs it.
-/

namespace Music21

/-- The seven letter names (steps) of the external pitch model. -/
inductive Step
  | C | D | E | F | G | A | B
deriving DecidableEq

/-- Index of a step within an octave, C = 0 .. B = 6. -/
def stepNum : Step → ℤ
  | .C => 0 | .D => 1 | .E => 2 | .F => 3 | .G => 4 | .A => 5 | .B => 6

/-- Semitone offset of each natural step above C. -/
def stepPc : Step → ℚ
  | .C => 0 | .D => 2 | .E => 4 | .F => 5 | .G => 7 | .A => 9 | .B => 11

/-- Step from a diatonic residue in [0, 7). -/
def stepOfNum : ℤ → Step
  | 0 => .C | 1 => .D | 2 => .E | 3 => .F | 4 => .G | 5 => .A | 6 => .B
  | _ => .C

/-- A pitch: letter step, octave, and optional accidental (its alter value
in semitones; `none` means no accidental object is attached, which sounds
natural but is distinct from an explicit natural for display purposes). -/
structure Pitch where
  step : Step
  octave : ℤ
  accidental : Option ℚ
deriving DecidableEq

/-- Sounding alteration of an optional accidental. -/
def alterOr0 : Option ℚ → ℚ
  | none => 0
  | some a => a

/-- Diatonic (staff-step) index of a pitch. -/
def Pitch.diatonicIndex (p : Pitch) : ℤ := 7 * p.octave + stepNum p.step

/-- Pitch-space value of the natural note at a step and octave (C4 = 60). -/
def natPs (s : Step) (o : ℤ) : ℚ := 12 * (o + 1) + stepPc s

/-- Pitch-space value of a pitch, accidental included. -/
def Pitch.ps (p : Pitch) : ℚ := natPs p.step p.octave + alterOr0 p.accidental

/-- Transposition by a generic second up or down (music21
`GenericInterval(2)` / `GenericInterval(-2)`): the letter moves one staff
step and the accidental field is carried along unchanged. -/
def genericSecond (p : Pitch) (up : Bool) : Pitch :=
  let idx := p.diatonicIndex + (if up then 1 else -1)
  { step := stepOfNum (idx % 7), octave := idx / 7,
    accidental := p.accidental }

/-- External key-signature model: a count of sharps (negative = flats). -/
structure KeySignature where
  sharps : ℤ
deriving DecidableEq

/-- Order in which sharps are added to a key signature. -/
def sharpOrder : List Step := [.F, .C, .G, .D, .A, .E, .B]

/-- Order in which flats are added to a key signature. -/
def flatOrder : List Step := [.B, .E, .A, .D, .G, .C, .F]

/-- music21 `KeySignature.accidentalByStep`: the accidental this signature
assigns to a step, `none` for natural. -/
def KeySignature.accidentalByStep (ks : KeySignature) (s : Step) : Option ℚ :=
  if 0 < ks.sharps then
    (if s ∈ sharpOrder.take ks.sharps.toNat then some 1 else none)
  else if ks.sharps < 0 then
    (if s ∈ flatOrder.take (-ks.sharps).toNat then some (-1) else none)
  else none

/-- External interval model: music21 `interval.Interval` reduced to its
signed generic size (letter distance, unison = 1) and chromatic size
(semitones). -/
structure Itv where
  generic : ℤ
  chromatic : ℚ
deriving DecidableEq

/-- music21 `interval.Interval(p, q)`: the interval from pitch p to q. -/
def intervalBetween (p q : Pitch) : Itv :=
  let d := q.diatonicIndex - p.diatonicIndex
  { generic := if 0 ≤ d then d + 1 else d - 1, chromatic := q.ps - p.ps }

/-- music21 `Interval.reverse`. -/
def Itv.reverse (i : Itv) : Itv :=
  { generic := if i.generic = 1 ∨ i.generic = -1 then i.generic else -i.generic,
    chromatic := -i.chromatic }

/-- music21 `Pitch.transpose` by a specific interval: the letter moves by
the generic size while the accidental becomes whatever alteration makes the
chromatic size exact; a zero alteration yields no accidental object. -/
def transposePitchBy (p : Pitch) (i : Itv) : Pitch :=
  let steps := if 0 ≤ i.generic then i.generic - 1 else i.generic + 1
  let idx := p.diatonicIndex + steps
  let newStep := stepOfNum (idx % 7)
  let newOct := idx / 7
  let alter : ℚ := (p.ps + i.chromatic) - natPs newStep newOct
  { step := newStep, octave := newOct,
    accidental := if alter = 0 then none else some alter }

/-- External `pitch.Accidental` table of canonical names and alter values. -/
def accidentalNameTable : List (String × ℚ) :=
  [("natural", 0), ("sharp", 1), ("flat", -1),
   ("double-sharp", 2), ("double-flat", -2),
   ("triple-sharp", 3), ("triple-flat", -3),
   ("quadruple-sharp", 4), ("quadruple-flat", -4),
   ("half-sharp", 1/2), ("half-flat", -1/2),
   ("one-and-a-half-sharp", 3/2), ("one-and-a-half-flat", -3/2)]

/-- External `pitch.isValidAccidentalName`: the canonical names plus the
common modifier synonyms accepted by `standardizeAccidentalName`. -/
def isValidAccidentalName (s : String) : Bool :=
  (accidentalNameTable.map Prod.fst).contains s
    || (["#", "b", "n", "##", "bb"] : List String).contains s

/-- External `pitch.standardizeAccidentalName`, on the modelled synonyms. -/
def standardizeAccidentalName (s : String) : String :=
  match s with
  | "#" => "sharp"
  | "b" => "flat"
  | "n" => "natural"
  | "##" => "double-sharp"
  | "bb" => "double-flat"
  | other => other

/-- Alter value of a canonical accidental name. -/
def alterOfAccidentalName (s : String) : ℚ :=
  (((accidentalNameTable.filter (fun pr => pr.fst = s)).map Prod.snd).headD 0)

/-- Equality of music21 `nameWithOctave` strings: step, octave, and
accidental modifier agree; a missing accidental and an explicit natural
both print an empty modifier, hence compare equal. -/
def nameWithOctaveEq (p q : Pitch) : Bool :=
  decide (p.step = q.step) && decide (p.octave = q.octave)
    && decide (alterOr0 p.accidental = alterOr0 q.accidental)

/-- The exception kinds raised by `expressions.py`. -/
inductive M21Error
  | expression (msg : String)
  | typeError (msg : String)
  | tremolo (msg : String)
deriving DecidableEq

/-- `true` exactly on the `error` constructor. -/
def isError {ε α : Type} : Except ε α → Bool
  | .error _ => true
  | .ok _ => false

/-- The notated-event collaborator reduced to what the ornament engine
reads and writes: a single pitch (as on `note.Note`), an exact-rational
quarter length, and the ordered attached-expression list, whose members
are identified by numeric ids (Python compares them by object identity). -/
structure Note where
  pitch : Pitch
  quarterLength : ℚ
  expressions : List ℕ
deriving DecidableEq

/-- Python `int()` applied to an exact rational: truncation toward zero. -/
def pyInt (q : ℚ) : ℤ := if 0 ≤ q then ⌊q⌋ else ⌈q⌉

/-- `Ornament.fillListOfRealizedNotes` (expressions.py 511..540): appends
to the accumulator a copy of the source at `useQL` and a transposed copy at
`useQL`.  (The copies keep the source's expression list; the source has a
TODO about clearing it.) -/
def fillListOfRealizedNotes (src : Note) (fill : List Note) (i : Itv)
    (useQL : ℚ) : List Note :=
  let firstNote : Note := { src with quarterLength := useQL }
  let secondNote : Note := { src with
    quarterLength := useQL
    pitch := transposePitchBy src.pitch i }
  fill ++ [firstNote, secondNote]

/-- The `for noteIdx, n in enumerate(...)` accidental-correction loops of
the mordent and turn realizations: map `f` over the list, feeding it the
1-based note number. -/
def enumerateMap (f : ℕ → Note → Note) : ℕ → List Note → List Note
  | _, [] => []
  | noteNum, n :: rest => f noteNum n :: enumerateMap f (noteNum + 1) rest

/-- Configuration state of a `GeneralMordent` and its subclasses:
`direction` is fixed per subclass ('' on the abstract base, 'down' for
Mordent, 'up' for InvertedMordent); `fixedSize` models the
HalfStep/WholeStep leaf overrides of `getSize`. -/
structure MordentCfg where
  direction : String
  accidentalName : String
  quarterLength : ℚ
  autoScale : Bool
  fixedSize : Option Itv
deriving DecidableEq

/-- `GeneralMordent.accidentalName` setter (expressions.py 747..752): an
invalid (or empty) name silently resets the stored name to the empty
string; no exception is raised. -/
def mordentSetAccidentalName (newName : String) : String :=
  if newName ≠ "" ∧ isValidAccidentalName newName = true then
    standardizeAccidentalName newName
  else ""

/-- `GeneralMordent.getSize` (expressions.py 758..792), with the
HalfStep/WholeStep subclass overrides folded in through `fixedSize`. -/
def mordentGetSize (m : MordentCfg) (src : Note)
    (keySig ctxKS : Option KeySignature) : Except M21Error Itv :=
  match m.fixedSize with
  | some i => .ok i
  | none =>
    if m.direction ≠ "up" ∧ m.direction ≠ "down" then
      .error (.expression
        "Cannot compute mordent size if I do not know its direction")
    else
      let ks := keySig.getD (ctxKS.getD { sharps := 0 })
      let srcPitch := src.pitch
      let o1 : Pitch := { srcPitch with accidental := none }
      let o2 := genericSecond o1 (decide (m.direction = "up"))
      let o3 := if m.accidentalName ≠ "" then
          { o2 with accidental := some (alterOfAccidentalName m.accidentalName) }
        else
          { o2 with accidental := ks.accidentalByStep o2.step }
      .ok (intervalBetween srcPitch o3)

/-- `GeneralMordent.resolveOrnamentalPitches` (expressions.py 794..812):
the ornamental pitch is the source pitch transposed by `getSize` called
with the same `keySig` argument; with an explicit `accidentalName`, a
missing accidental on the result is forced to natural (`Accidental(0)`)
so that it can be displayed (the display flag itself is not modelled). -/
def mordentResolveOrnamentalPitches (m : MordentCfg) (src : Note)
    (keySig ctxKS : Option KeySignature) : Except M21Error Pitch :=
  match mordentGetSize m src keySig ctxKS with
  | .error e => .error e
  | .ok transposeItv =>
    let p := transposePitchBy src.pitch transposeItv
    let p := if m.accidentalName ≠ "" ∧ p.accidental = none then
        { p with accidental := some 0 }
      else p
    .ok p

/-- `GeneralMordent.realize` (expressions.py 855..928).  The result pairs
the state of the source note after the call (capturing the inPlace
aliasing: the remainder note IS the source when `inPlace`) with the
`(preNotes, mainEvent, postNotes)` triple that the method returns. -/
def mordentRealize (m : MordentCfg) (selfId : ℕ) (src : Note)
    (keySig ctxKS : Option KeySignature) (inPlace : Bool) :
    Except M21Error (Note × (List Note × Option Note × List Note)) :=
  if m.direction ≠ "up" ∧ m.direction ≠ "down" then
    .error (.expression "Cannot realize a mordent if I do not know its direction")
  else if src.quarterLength = 0 then
    .error (.expression "Cannot steal time from an object with no duration")
  else if src.quarterLength ≤ m.quarterLength * 2 ∧ ¬ m.autoScale then
    .error (.expression "The note is not long enough to realize a mordent")
  else
    let use_ql := if src.quarterLength ≤ m.quarterLength * 2
      then src.quarterLength / 4 else m.quarterLength
    let currentKeySig := keySig.getD (ctxKS.getD { sharps := 0 })
    let remainderQL := src.quarterLength - 2 * use_ql
    match mordentGetSize m src (some currentKeySig) ctxKS with
    | .error e => .error e
    | .ok transposeItv =>
      let mordNotes := fillListOfRealizedNotes src [] transposeItv use_ql
      let mordNotes := enumerateMap (fun noteNum n =>
        if n.pitch.accidental = none ∧ noteNum = 2 then
          { n with pitch := { n.pitch with
              accidental := currentKeySig.accidentalByStep n.pitch.step } }
        else n) 1 mordNotes
      let inExpr := decide (selfId ∈ src.expressions)
      let remainderNote : Note := { src with
        quarterLength := remainderQL
        expressions := if inExpr then src.expressions.erase selfId
                       else src.expressions }
      let srcAfter := if inPlace then remainderNote else src
      .ok (srcAfter, (mordNotes, some remainderNote, []))

/-- Configuration state of a `Trill` and its subclasses:
`setAccidentalFromKeySig` is the internal flag cleared by the
HalfStep/WholeStep leaves, whose fixed `getSize` is `fixedSize`. -/
structure TrillCfg where
  accidentalName : String
  quarterLength : ℚ
  nachschlag : Bool
  autoScale : Bool
  setAccidentalFromKeySig : Bool
  fixedSize : Option Itv
deriving DecidableEq

/-- `Trill.accidentalName` setter (expressions.py 1228..1233): same silent
reset behaviour as the mordent setter. -/
def trillSetAccidentalName (newName : String) : String :=
  if newName ≠ "" ∧ isValidAccidentalName newName = true then
    standardizeAccidentalName newName
  else ""

/-- `Trill.getSize` (expressions.py 1257..1285): always a generic second
up, with the same accidental precedence as the mordent. -/
def trillGetSize (t : TrillCfg) (src : Note)
    (keySig ctxKS : Option KeySignature) : Except M21Error Itv :=
  match t.fixedSize with
  | some i => .ok i
  | none =>
    let ks := keySig.getD (ctxKS.getD { sharps := 0 })
    let srcPitch := src.pitch
    let o1 : Pitch := { srcPitch with accidental := none }
    let o2 := genericSecond o1 true
    let o3 := if t.accidentalName ≠ "" then
        { o2 with accidental := some (alterOfAccidentalName t.accidentalName) }
      else
        { o2 with accidental := ks.accidentalByStep o2.step }
    .ok (intervalBetween srcPitch o3)

/-- `Trill.resolveOrnamentalPitches` (expressions.py 1287..1305): the
ornamental pitch is the source pitch transposed by `getSize` called with
the same `keySig` argument; with an explicit `accidentalName`, a missing
accidental on the result is forced to natural (`Accidental(0)`) so that
it can be displayed (the display flag itself is not modelled). -/
def trillResolveOrnamentalPitches (t : TrillCfg) (src : Note)
    (keySig ctxKS : Option KeySignature) : Except M21Error Pitch :=
  match trillGetSize t src keySig ctxKS with
  | .error e => .error e
  | .ok transposeItv =>
    let p := transposePitchBy src.pitch transposeItv
    let p := if t.accidentalName ≠ "" ∧ p.accidental = none then
        { p with accidental := some 0 }
      else p
    .ok p

/-- The guard chain and effective per-note duration computed at the top of
`Trill.realize` (expressions.py 1457..1467). -/
def trillUseQL (t : TrillCfg) (dur : ℚ) : Except M21Error ℚ :=
  if dur = 0 then
    .error (.expression "Cannot steal time from an object with no duration")
  else if dur < 2 * t.quarterLength ∧ ¬ t.autoScale then
    .error (.expression "The note is not long enough to realize a trill")
  else if dur < 4 * t.quarterLength ∧ t.nachschlag ∧ ¬ t.autoScale then
    .error (.expression "The note is not long enough for a nachschlag")
  else
    let u1 := if dur < 2 * t.quarterLength then dur / 2 else t.quarterLength
    let u2 := if dur < 4 * t.quarterLength ∧ t.nachschlag then dur / 4 else u1
    .ok u2

/-- `Trill.realize` (expressions.py 1349..1520).  `inPlace` only removes
the trill from the source's expression list; the trill consumes the whole
note (the main event of the triple is always `None`). -/
def trillRealize (t : TrillCfg) (selfId : ℕ) (src : Note)
    (keySig ctxKS : Option KeySignature) (inPlace : Bool) :
    Except M21Error (Note × (List Note × Option Note × List Note)) :=
  match trillUseQL t src.quarterLength with
  | .error e => .error e
  | .ok useQL =>
    let currentKeySig := keySig.getD (ctxKS.getD { sharps := 0 })
    match trillGetSize t src (some currentKeySig) ctxKS with
    | .error e => .error e
    | .ok transposeItv =>
      let transposeItvRev := transposeItv.reverse
      let numberOfTrillNotes := pyInt (src.quarterLength / useQL)
        - (if t.nachschlag then 2 else 0)
      let pairCount := (pyInt ((numberOfTrillNotes : ℚ) / 2)).toNat
      let trillNotes := (List.range pairCount).foldl
        (fun acc _ => fillListOfRealizedNotes src acc transposeItv useQL) []
      let trillNotes := if t.setAccidentalFromKeySig then
          trillNotes.map (fun n =>
            if nameWithOctaveEq n.pitch src.pitch = false
                ∧ n.pitch.accidental = none then
              { n with pitch := { n.pitch with
                  accidental := currentKeySig.accidentalByStep n.pitch.step } }
            else n)
        else trillNotes
      let srcAfter := if inPlace ∧ selfId ∈ src.expressions then
          { src with expressions := src.expressions.erase selfId }
        else src
      if t.nachschlag then
        let firstN : Note := { src with
          expressions := []
          quarterLength := useQL }
        let secondN : Note := { src with
          expressions := []
          quarterLength := useQL
          pitch := transposePitchBy src.pitch transposeItvRev }
        let firstN := if t.setAccidentalFromKeySig then
            { firstN with pitch := { firstN.pitch with
                accidental := currentKeySig.accidentalByStep firstN.pitch.step } }
          else firstN
        let secondN := if t.setAccidentalFromKeySig then
            { secondN with pitch := { secondN.pitch with
                accidental := currentKeySig.accidentalByStep secondN.pitch.step } }
          else secondN
        .ok (srcAfter, (trillNotes, none, [firstN, secondN]))
      else
        .ok (srcAfter, (trillNotes, none, []))

/-- A turn's delay: the `OrnamentDelay` enum plus the explicit
quarter-length case. -/
inductive TurnDelay
  | noDelay
  | defaultDelay
  | ql (q : ℚ)
deriving DecidableEq

/-- `Turn.delay` property setter (expressions.py 1712..1717): a
non-positive numeric delay is converted to NO_DELAY.  The constructor
assigns through this setter. -/
def turnSetDelay (newDelay : TurnDelay) : TurnDelay :=
  match newDelay with
  | .ql q => if q ≤ 0 then .noDelay else .ql q
  | d => d

/-- `Turn.isDelayed` (expressions.py 1719..1725). -/
def turnIsDelayed (delay : TurnDelay) : Bool := decide (delay ≠ .noDelay)

/-- Configuration state of a `Turn` / `InvertedTurn`. -/
structure TurnCfg where
  delay : TurnDelay
  upperAccidentalName : String
  lowerAccidentalName : String
  quarterLength : ℚ
  autoScale : Bool
  isInverted : Bool
deriving DecidableEq

/-- `Turn.getSize` (expressions.py 1774..1811). -/
def turnGetSize (tn : TurnCfg) (src : Note)
    (keySig ctxKS : Option KeySignature) (which : String) :
    Except M21Error Itv :=
  if which ≠ "upper" ∧ which ≠ "lower" then
    .error (.expression
      "Turn.getSize requires which parameter be set to upper or lower")
  else
    let ks := keySig.getD (ctxKS.getD { sharps := 0 })
    let srcPitch := src.pitch
    let o1 : Pitch := { srcPitch with accidental := none }
    let o2 := genericSecond o1 (decide (which = "upper"))
    let accName := if which = "upper" then tn.upperAccidentalName
      else tn.lowerAccidentalName
    let o3 := if accName ≠ "" then
        { o2 with accidental := some (alterOfAccidentalName accName) }
      else
        { o2 with accidental := ks.accidentalByStep o2.step }
    .ok (intervalBetween srcPitch o3)

/-- `Turn.resolveOrnamentalPitches` (expressions.py 1813..1845): the
upper and lower ornamental pitches are the source pitch transposed by
`getSize(..., which='upper')` and `getSize(..., which='lower')`, both
called with the same `keySig` argument; an explicit upper/lower
accidental name forces a missing accidental on the corresponding result
to natural (`Accidental(0)`) so that it can be displayed (the display
flag itself is not modelled). -/
def turnResolveOrnamentalPitches (tn : TurnCfg) (src : Note)
    (keySig ctxKS : Option KeySignature) :
    Except M21Error (Pitch × Pitch) :=
  match turnGetSize tn src keySig ctxKS "upper" with
  | .error e => .error e
  | .ok itvUp =>
    match turnGetSize tn src keySig ctxKS "lower" with
    | .error e => .error e
    | .ok itvDown =>
      let upperPitch := transposePitchBy src.pitch itvUp
      let lowerPitch := transposePitchBy src.pitch itvDown
      let upperPitch := if tn.upperAccidentalName ≠ ""
          ∧ upperPitch.accidental = none then
          { upperPitch with accidental := some 0 }
        else upperPitch
      let lowerPitch := if tn.lowerAccidentalName ≠ ""
          ∧ lowerPitch.accidental = none then
          { lowerPitch with accidental := some 0 }
        else lowerPitch
      .ok (upperPitch, lowerPitch)

/-- The delay resolution at the top of `Turn.realize`
(expressions.py 2029..2039). -/
def turnRemainderDuration (delay : TurnDelay) (dur : ℚ) : ℚ :=
  match delay with
  | .noDelay => 0
  | .defaultDelay => dur / 2
  | .ql q => q

/-- `Turn.realize` (expressions.py 1914..2114).  Note that the
key-signature fill of the first and third turn notes (source line 2088)
searches the context regardless of the `keySig` argument, while the
transposition intervals honour the `keySig` argument through `getSize`. -/
def turnRealize (tn : TurnCfg) (selfId : ℕ) (src : Note)
    (keySig ctxKS : Option KeySignature) (inPlace : Bool) :
    Except M21Error (Note × (List Note × Option Note × List Note)) :=
  if src.quarterLength = 0 then
    .error (.expression "Cannot steal time from an object with no duration")
  else
    let remainderDuration := turnRemainderDuration tn.delay src.quarterLength
    let turnDuration := src.quarterLength - remainderDuration
    if turnDuration < 4 * tn.quarterLength ∧ ¬ tn.autoScale then
      .error (.expression "The note is not long enough to realize a turn")
    else
      let useQL := if turnDuration < 4 * tn.quarterLength then turnDuration / 4
        else tn.quarterLength
      let fourthNoteQL : Option ℚ :=
        if 4 * tn.quarterLength < turnDuration then
          some (turnDuration - 3 * tn.quarterLength)
        else none
      let firstWhich := if tn.isInverted then "lower" else "upper"
      let secondWhich := if tn.isInverted then "upper" else "lower"
      match turnGetSize tn src keySig ctxKS firstWhich,
            turnGetSize tn src keySig ctxKS secondWhich with
      | .error e, _ => .error e
      | .ok _, .error e => .error e
      | .ok firstItv, .ok secondItv =>
        let firstNote : Note := { src with
          expressions := []
          quarterLength := useQL
          pitch := transposePitchBy src.pitch firstItv }
        let secondNote : Note := { src with
          expressions := []
          quarterLength := useQL }
        let thirdNote : Note := { src with
          expressions := []
          quarterLength := useQL
          pitch := transposePitchBy src.pitch secondItv }
        let fourthNote : Note := { src with
          expressions := []
          quarterLength := fourthNoteQL.getD useQL }
        let currentKeySig := ctxKS.getD { sharps := 0 }
        let turnNotes := enumerateMap (fun noteNum n =>
            if n.pitch.accidental = none ∧ (noteNum = 1 ∨ noteNum = 3) then
              { n with pitch := { n.pitch with
                  accidental := currentKeySig.accidentalByStep n.pitch.step } }
            else n) 1 [firstNote, secondNote, thirdNote, fourthNote]
        if remainderDuration = 0 then
          .ok (src, ([], none, turnNotes))
        else
          let inExpr := decide (selfId ∈ src.expressions)
          let remainderNote : Note := { src with
            quarterLength := remainderDuration
            expressions := if inExpr then src.expressions.erase selfId
                           else src.expressions }
          let srcAfter := if inPlace then remainderNote else src
          .ok (srcAfter, ([], some remainderNote, turnNotes))

/-- Configuration state of a `GeneralAppoggiatura` subclass: `direction`
('' on the abstract base) and the fixed transposition `size`.  The source
also compares `size` against the empty string, which is never true for the
Interval objects every subclass installs, so that guard is omitted. -/
structure AppoggiaturaCfg where
  direction : String
  size : Itv
deriving DecidableEq

/-- `GeneralAppoggiatura.realize` (expressions.py 2145..2206). -/
def appoggiaturaRealize (a : AppoggiaturaCfg) (selfId : ℕ) (src : Note)
    (keySig ctxKS : Option KeySignature) (inPlace : Bool) :
    Except M21Error (Note × (List Note × Option Note × List Note)) :=
  if a.direction ≠ "up" ∧ a.direction ≠ "down" then
    .error (.expression
      "Cannot realize an Appoggiatura if I do not know its direction")
  else if src.quarterLength = 0 then
    .error (.expression "Cannot steal time from an object with no duration")
  else
    let newDuration := src.quarterLength / 2
    let transposeItv := if a.direction = "down" then a.size else a.size.reverse
    let appoggiaturaNote : Note := { src with
      quarterLength := newDuration
      pitch := transposePitchBy src.pitch transposeItv }
    let inExpr := decide (selfId ∈ src.expressions)
    let remainderNote : Note := { src with
      quarterLength := newDuration
      expressions := if inExpr then src.expressions.erase selfId
                     else src.expressions }
    let srcAfter := if inPlace then remainderNote else src
    .ok (srcAfter, ([appoggiaturaNote], some remainderNote, []))

/-- Configuration state of a `Tremolo`. -/
structure TremoloCfg where
  measured : Bool
  numberOfMarks : ℤ
deriving DecidableEq

/-- `Tremolo.numberOfMarks` setter (expressions.py 2279..2289) on numeric
input: out-of-range values raise a TremoloException. -/
def tremoloSetNumberOfMarks (num : ℤ) : Except M21Error ℤ :=
  if num < 0 ∨ 8 < num then
    .error (.tremolo "Number of marks must be a number from 0 to 8")
  else .ok num

/-- The while loop of `Tremolo.realize` (expressions.py 2348..2353): the
quarter lengths of the pieces produced by repeatedly splitting at
`lengthOfEach` boundaries, with the leftover tail appended last. -/
def tremoloPieces (len : ℚ) (hl : 0 < len) (q : ℚ) : List ℚ :=
  if h : len < q then len :: tremoloPieces len hl (q - len)
  else [q]
termination_by (⌈q / len⌉).toNat
decreasing_by
  have h1 : (1 : ℚ) < q / len := (one_lt_div hl).mpr h
  have h2 : (1 : ℤ) < ⌈q / len⌉ := by
    exact Int.lt_ceil.mpr (by exact_mod_cast h1)
  have h3 : ⌈(q - len) / len⌉ = ⌈q / len⌉ - 1 := by
    rw [sub_div, div_self (ne_of_gt hl)]
    exact_mod_cast Int.ceil_sub_int (q / len) 1
  simp only [h3]
  omega

/-- `Tremolo.realize` (expressions.py 2291..2355).  There is no
zero-duration guard: the source is split into pieces of quarter length
`2 ^ (-numberOfMarks)` plus a final remainder piece.  The distribution of
spanners and articulations during `splitAtQuarterLength` is external; each
piece carries the source's pitch and the post-removal expression list. -/
def tremoloRealize (tr : TremoloCfg) (selfId : ℕ) (src : Note)
    (keySig ctxKS : Option KeySignature) (inPlace : Bool) :
    Except M21Error (Note × (List Note × Option Note × List Note)) :=
  let lengthOfEach : ℚ := 2 ^ (-tr.numberOfMarks)
  let eRemain0 : Note := { src with
    expressions := if selfId ∈ src.expressions then
        src.expressions.erase selfId
      else src.expressions }
  let qls := tremoloPieces lengthOfEach (by positivity) src.quarterLength
  let objsConverted := qls.map (fun piece =>
    { eRemain0 with quarterLength := piece })
  let srcAfter := if inPlace then eRemain0 else src
  .ok (srcAfter, (objsConverted, none, []))

/-- `RehearsalMark.__init__` numbering validation (expressions.py
181..187). -/
def rehearsalMarkCheckNumbering (numbering : Option String) :
    Except M21Error (Option String) :=
  if numbering = some "alphabetical" ∨ numbering = some "roman"
      ∨ numbering = some "number" ∨ numbering = none then
    .ok numbering
  else
    .error (.expression "Numbering must be alphabetical, roman, number, or None")

/-- `ArpeggioMark.__init__` type validation (expressions.py 2505..2514):
a missing or empty type defaults to normal; anything else outside the
allowed set raises. -/
def arpeggioMarkInit (arpeggioType : Option String) : Except M21Error String :=
  let ty := match arpeggioType with
    | none => "normal"
    | some s => if s = "" then "normal" else s
  if ty = "normal" ∨ ty = "up" ∨ ty = "down" ∨ ty = "non-arpeggio" then
    .ok ty
  else
    .error (.expression "Arpeggio type must be normal, up, down, or non-arpeggio")

section Driver

/-- An event as seen by `realizeOrnaments`: a payload identifying the note
content plus the ordered expression list.  Expressions are an abstract
type `E`, realized through the oracle functions below — this mirrors the
driver's `hasattr` dispatch, which treats `realize` as an opaque method. -/
structure DEvent (E : Type) where
  payload : ℕ
  expressions : List E

variable {E : Type} [DecidableEq E] (hasRealize : E → Bool)
  (realizeFn : E → DEvent E → Option KeySignature →
    (List (DEvent E) × Option (DEvent E) × List (DEvent E)))

/-- The while loop of `realizeOrnaments` (expressions.py 83..112).  `fuel`
plays the role of `loopBuster = 100`; the loop body is entered only with a
non-empty expression list, and the `[]` case below is the (unreachable in
the source) immediate exit.  Returns the pre-list accumulator, the
remaining event, and the post-list accumulator at loop exit. -/
def realizeLoop : ℕ → DEvent E → Option KeySignature →
    List (DEvent E) → List (DEvent E) →
    List (DEvent E) × Option (DEvent E) × List (DEvent E)
  | 0, srcObject, _, preAcc, postAcc => (preAcc, some srcObject, postAcc)
  | fuel + 1, srcObject, keySig, preAcc, postAcc =>
    match srcObject.expressions with
    | [] => (preAcc, some srcObject, postAcc)
    | thisExpression :: rest =>
      if hasRealize thisExpression then
        let r := realizeFn thisExpression srcObject keySig
        let preAcc2 := preAcc ++ r.1
        let postAcc2 := postAcc ++ r.2.2
        match r.2.1 with
        | none => (preAcc2, none, postAcc2)
        | some newSrcObject =>
          let newSrcObject2 : DEvent E := { newSrcObject with
            expressions := rest }
          if newSrcObject2.expressions = [] then
            (preAcc2, some newSrcObject2, postAcc2)
          else realizeLoop fuel newSrcObject2 keySig preAcc2 postAcc2
      else
        let srcObject2 : DEvent E := { srcObject with expressions := rest }
        if srcObject2.expressions = [] then
          (preAcc, some srcObject2, postAcc)
        else realizeLoop fuel srcObject2 keySig preAcc postAcc

/-- `realizeOrnaments` (expressions.py 47..122): run the loop with a
ceiling of 100 iterations and concatenate pre-list, remaining event (when
not consumed), and post-list. -/
def realizeOrnamentsD (srcObj : DEvent E) (keySig : Option KeySignature) :
    List (DEvent E) :=
  if srcObj.expressions = [] then [srcObj]
  else
    let r := realizeLoop hasRealize realizeFn 100 srcObj keySig [] []
    r.1 ++ r.2.1.toList ++ r.2.2

end Driver

/-! Concrete objects used to exercise the definitions. -/

/-- Key signature with no sharps or flats. -/
def ks0 : KeySignature := { sharps := 0 }

/-- Key signature with five sharps. -/
def ks5 : KeySignature := { sharps := 5 }

/-- A pitched note with the given step, octave, accidental, quarter length
and attached-expression ids. -/
def mkNote (s : Step) (oct : ℤ) (acc : Option ℚ) (ql : ℚ) (ex : List ℕ) :
    Note :=
  { pitch := { step := s, octave := oct, accidental := acc }
    quarterLength := ql
    expressions := ex }

/-- The `Mordent()` defaults: direction down, 32nd-note quarterLength. -/
def mordentDown : MordentCfg :=
  { direction := "down", accidentalName := "", quarterLength := 1/8,
    autoScale := true, fixedSize := none }

/-- `Mordent(accidentalName='flat')`. -/
def mordentDownFlat : MordentCfg := { mordentDown with accidentalName := "flat" }

/-- `GeneralMordent()`: the abstract base, direction unset. -/
def mordentBase : MordentCfg := { mordentDown with direction := "" }

/-- The `Trill()` defaults. -/
def trillDefault : TrillCfg :=
  { accidentalName := "", quarterLength := 1/8, nachschlag := false,
    autoScale := true, setAccidentalFromKeySig := true, fixedSize := none }

/-- The `Turn()` defaults: quarterLength 0.25, no delay. -/
def turnNoDelay : TurnCfg :=
  { delay := .noDelay, upperAccidentalName := "", lowerAccidentalName := "",
    quarterLength := 1/4, autoScale := true, isInverted := false }

/-- `Turn(delay=OrnamentDelay.DEFAULT_DELAY)`. -/
def turnDefaultDelay : TurnCfg := { turnNoDelay with delay := .defaultDelay }

/-- `Appoggiatura()`: direction down, with `interval.Interval(2)` (a major
second) as its size. -/
def appoggiaturaDown : AppoggiaturaCfg :=
  { direction := "down", size := { generic := 2, chromatic := 2 } }

/-- The `Tremolo()` defaults: measured, three marks. -/
def tremoloDefault : TremoloCfg := { measured := true, numberOfMarks := 3 }

/-- A concrete expression oracle for exercising the driver: every
expression supports realize. -/
def demoHasRealize : ℕ → Bool := fun _ => true

/-- A concrete realize oracle: consume the ornament into one pre-note and
no remaining event. -/
def demoRealizeFn : ℕ → DEvent ℕ → Option KeySignature →
    (List (DEvent ℕ) × Option (DEvent ℕ) × List (DEvent ℕ)) :=
  fun _ ev _ => ([{ payload := ev.payload, expressions := [] }], none, [])

/-! Theorems about the claims. -/

/-- C10: invariant of `Turn.delay` — assigning any numeric delay that is
not strictly positive stores NO_DELAY, so a stored numeric delay is always
strictly positive, and `isDelayed` is true exactly when the stored delay
differs from NO_DELAY. -/
theorem turn_delay_invariant (d : TurnDelay) :
    (∀ q : ℚ, q ≤ 0 → turnSetDelay (.ql q) = .noDelay) ∧
    (∀ q : ℚ, turnSetDelay d = .ql q → 0 < q) ∧
    (turnIsDelayed (turnSetDelay d) = true ↔ turnSetDelay d ≠ .noDelay) := by
  refine ⟨fun q hq => ?_, fun q hq => ?_, ?_⟩
  · simp [turnSetDelay, if_pos hq]
  · cases d with
    | noDelay => simp [turnSetDelay] at hq
    | defaultDelay => simp [turnSetDelay] at hq
    | ql qv =>
      by_cases hv : qv ≤ 0
      · simp [turnSetDelay, if_pos hv] at hq
      · simp only [turnSetDelay, if_neg hv, TurnDelay.ql.injEq] at hq
        subst hq
        exact lt_of_not_ge hv
  · simp [turnIsDelayed]

/-- C10 witness: a concrete non-positive delay assignment stores
NO_DELAY. -/
theorem turn_delay_invariant_witness :
    ((-1 : ℚ) ≤ 0) ∧ turnSetDelay (.ql (-1)) = .noDelay :=
  ⟨by norm_num, (turn_delay_invariant .noDelay).1 (-1) (by norm_num)⟩

/-- C8 counterexample: the claim evaluates `GeneralMordent().getSize` on a
C4 note, but the abstract base has no direction, so `getSize` raises the
direction error instead of returning an interval. -/
theorem generalMordent_getSize_raises :
    mordentGetSize mordentBase (mkNote .C 4 none 1 []) (some ks0) none
      = .error (.expression
          "Cannot compute mordent size if I do not know its direction") := by
  norm_num +decide [mordentGetSize, mordentBase, mordentDown]

/-- C8 amended: `Mordent().getSize` (direction down) on a C4 note with no
explicit accidental and a zero-sharps key signature is a descending minor
second (generic -2, one semitone down); with accidentalName 'flat' it is a
descending major second (generic -2, two semitones down). -/
theorem mordent_getSize_c4_intervals :
    mordentGetSize mordentDown (mkNote .C 4 none 1 []) (some ks0) none
      = .ok { generic := -2, chromatic := -1 } ∧
    mordentGetSize mordentDownFlat (mkNote .C 4 none 1 []) (some ks0) none
      = .ok { generic := -2, chromatic := -2 } := by
  constructor <;>
    norm_num +decide [mordentGetSize, mordentDown, mordentDownFlat, mkNote, ks0,
      genericSecond, stepNum, stepOfNum, intervalBetween, Pitch.diatonicIndex,
      Pitch.ps, natPs, stepPc, alterOr0, KeySignature.accidentalByStep,
      sharpOrder, flatOrder, alterOfAccidentalName, accidentalNameTable]

/-- C6 amended: out-of-range tremolo mark counts, invalid rehearsal-mark
numbering strings and invalid arpeggio-type strings are raised at the
point of assignment and never clamped; but an invalid accidental name
assigned to a Mordent or Trill does not raise — the setter silently resets
the stored name to the empty string. -/
theorem config_assignment_errors :
    (∀ n : ℤ, isError (tremoloSetNumberOfMarks n) = true ↔ (n < 0 ∨ 8 < n)) ∧
    (∀ s : Option String, isError (rehearsalMarkCheckNumbering s) = true ↔
      (s ≠ some "alphabetical" ∧ s ≠ some "roman" ∧ s ≠ some "number"
        ∧ s ≠ none)) ∧
    (∀ s : String, s ≠ "" →
      (isError (arpeggioMarkInit (some s)) = true ↔
        (s ≠ "normal" ∧ s ≠ "up" ∧ s ≠ "down" ∧ s ≠ "non-arpeggio"))) ∧
    (∀ s : String, isValidAccidentalName s = false →
      mordentSetAccidentalName s = "" ∧ trillSetAccidentalName s = "") := by
  refine ⟨fun n => ?_, fun s => ?_, fun s hs => ?_, fun s hs => ?_⟩
  · by_cases hc : n < 0 ∨ 8 < n
    · simp [tremoloSetNumberOfMarks, if_pos hc, isError, hc]
    · simp [tremoloSetNumberOfMarks, if_neg hc, isError]
      omega
  · by_cases hc : s = some "alphabetical" ∨ s = some "roman"
        ∨ s = some "number" ∨ s = none
    · simp [rehearsalMarkCheckNumbering, if_pos hc, isError]
      tauto
    · simp [rehearsalMarkCheckNumbering, if_neg hc, isError]
      tauto
  · by_cases hc : s = "normal" ∨ s = "up" ∨ s = "down" ∨ s = "non-arpeggio"
    · simp [arpeggioMarkInit, hs, if_pos hc, isError]
      tauto
    · simp [arpeggioMarkInit, hs, if_neg hc, isError]
      tauto
  · constructor <;> simp [mordentSetAccidentalName, trillSetAccidentalName, hs]

/-- C6 witness: a concrete invalid mark count raises, and a concrete
invalid accidental name is silently dropped. -/
theorem config_assignment_errors_witness :
    (isValidAccidentalName "wxyz" = false) ∧
    (mordentSetAccidentalName "wxyz" = "" ∧ trillSetAccidentalName "wxyz" = "") :=
  ⟨by decide, config_assignment_errors.2.2.2 "wxyz" (by decide)⟩

/-- C6 counterexample: the claim says assigning an invalid accidental name
to a Mordent raises; instead the setter completes and quietly resets the
stored name to the empty string ("wxyz" is not a valid accidental name). -/
theorem mordent_accidental_silent_reset :
    mordentSetAccidentalName "wxyz" = ""
      ∧ isValidAccidentalName "wxyz" = false := by
  constructor
  · norm_num +decide [mordentSetAccidentalName, isValidAccidentalName,
      accidentalNameTable, standardizeAccidentalName]
  · decide

/-- C1 amended: on a zero-duration source event the Mordent, Trill, Turn
and Appoggiatura realizations all fail with the zero-duration domain error
(the mordent and appoggiatura direction guards come first, so their
directions must be set), while `Tremolo.realize` has no zero-duration
guard and returns normally. -/
theorem zeroDuration_realize_behavior (m : MordentCfg) (t : TrillCfg)
    (tn : TurnCfg) (a : AppoggiaturaCfg) (tr : TremoloCfg) (selfId : ℕ)
    (src : Note) (ks ctx : Option KeySignature) (ip : Bool)
    (hdur : src.quarterLength = 0)
    (hmd : m.direction = "up" ∨ m.direction = "down")
    (had : a.direction = "up" ∨ a.direction = "down") :
    mordentRealize m selfId src ks ctx ip
      = .error (.expression "Cannot steal time from an object with no duration") ∧
    trillRealize t selfId src ks ctx ip
      = .error (.expression "Cannot steal time from an object with no duration") ∧
    turnRealize tn selfId src ks ctx ip
      = .error (.expression "Cannot steal time from an object with no duration") ∧
    appoggiaturaRealize a selfId src ks ctx ip
      = .error (.expression "Cannot steal time from an object with no duration") ∧
    ∃ res, tremoloRealize tr selfId src ks ctx ip = .ok res := by
  have hmd2 : ¬ (m.direction ≠ "up" ∧ m.direction ≠ "down") := by
    rcases hmd with h | h <;> simp [h]
  have had2 : ¬ (a.direction ≠ "up" ∧ a.direction ≠ "down") := by
    rcases had with h | h <;> simp [h]
  refine ⟨?_, ?_, ?_, ?_, ⟨_, rfl⟩⟩
  · simp [mordentRealize, if_neg hmd2, hdur]
  · simp [trillRealize, trillUseQL, hdur]
  · simp [turnRealize, hdur]
  · simp [appoggiaturaRealize, if_neg had2, hdur]

/-- C1 witness: the amended behaviour at a concrete zero-duration C4 note
with the default ornaments. -/
theorem zeroDuration_realize_behavior_witness :
    (mkNote .C 4 none 0 [0]).quarterLength = 0 ∧
    mordentRealize mordentDown 0 (mkNote .C 4 none 0 [0]) none none false
      = .error (.expression "Cannot steal time from an object with no duration") :=
  ⟨rfl,
    (zeroDuration_realize_behavior mordentDown trillDefault turnNoDelay
      appoggiaturaDown tremoloDefault 0 (mkNote .C 4 none 0 [0]) none none false
      rfl (Or.inr rfl) (Or.inr rfl)).1⟩

/-- C1 counterexample: the claim says no variant's realize returns
normally on a zero-duration event, but `Tremolo.realize` does: on a
zero-duration C4 note it returns the event (with the tremolo removed from
the copy's expression list) as a single zero-duration sub-note. -/
theorem tremolo_zero_duration_returns :
    tremoloRealize tremoloDefault 0 (mkNote .C 4 none 0 [0]) none none false
      = .ok (mkNote .C 4 none 0 [0], ([mkNote .C 4 none 0 []], none, [])) := by
  norm_num [tremoloRealize, tremoloDefault, mkNote]
  rw [tremoloPieces]
  norm_num

/-- C5: for every Mordent-family realization that does not raise, the two
sub-note durations plus the remainder event's duration sum exactly to the
original event's duration; each sub-note is duration/4 in the
autoScale-shrunk case (event duration at most twice the configured
quarterLength) and the configured quarterLength otherwise. -/
theorem mordent_duration_sum (m : MordentCfg) (selfId : ℕ) (src : Note)
    (ks ctx : Option KeySignature) (ip : Bool) (sa rem : Note)
    (pre post : List Note)
    (h : mordentRealize m selfId src ks ctx ip = .ok (sa, (pre, some rem, post))) :
    (pre.map Note.quarterLength).sum + rem.quarterLength = src.quarterLength ∧
    (src.quarterLength ≤ 2 * m.quarterLength →
      pre.map Note.quarterLength
        = [src.quarterLength / 4, src.quarterLength / 4]) ∧
    (2 * m.quarterLength < src.quarterLength →
      pre.map Note.quarterLength = [m.quarterLength, m.quarterLength]) := by
  by_cases h1 : m.direction ≠ "up" ∧ m.direction ≠ "down"
  · simp [mordentRealize, if_pos h1] at h
  by_cases h2 : src.quarterLength = 0
  · simp [mordentRealize, h1, h2] at h
  cases hg : mordentGetSize m src
      (some (ks.getD (ctx.getD { sharps := 0 }))) ctx with
  | error e =>
    by_cases h4 : src.quarterLength ≤ m.quarterLength * 2
    · by_cases h5 : m.autoScale = true
      · simp [mordentRealize, h1, h2, h4, h5, hg] at h
      · simp [mordentRealize, h1, h2, h4,
          (by simp at h5; exact h5 : m.autoScale = false)] at h
    · simp [mordentRealize, h1, h2, h4, hg] at h
  | ok itv =>
    by_cases h4 : src.quarterLength ≤ m.quarterLength * 2
    · have h5 : m.autoScale = true := by
        by_contra hb
        simp only [Bool.not_eq_true] at hb
        simp [mordentRealize, h1, h2, h4, hb] at h
      simp [mordentRealize, h1, h2, h4, h5, hg, fillListOfRealizedNotes,
        enumerateMap] at h
      obtain ⟨hsa, hpre, hrem, hpost⟩ := h
      subst hpre hrem
      refine ⟨?_, fun _ => ?_, fun h6 => ?_⟩
      · simp [apply_ite Note.quarterLength]
        ring
      · simp [apply_ite Note.quarterLength]
      · exfalso
        rw [mul_comm] at h6
        exact absurd h4 (not_le.mpr h6)
    · simp [mordentRealize, h1, h2, h4, hg, fillListOfRealizedNotes,
        enumerateMap] at h
      obtain ⟨hsa, hpre, hrem, hpost⟩ := h
      subst hpre hrem
      refine ⟨?_, fun h6 => ?_, fun _ => ?_⟩
      · simp [apply_ite Note.quarterLength]
        ring
      · exfalso
        rw [mul_comm] at h6
        exact absurd h6 h4
      · simp [apply_ite Note.quarterLength]

/-- C5 witness: the sum property at a concrete half-note C4 with the
default Mordent. -/
theorem mordent_duration_sum_witness :
    (mordentRealize mordentDown 0 (mkNote .C 4 none (1/2) [0]) (some ks0)
        none false
      = .ok (mkNote .C 4 none (1/2) [0],
          ([mkNote .C 4 none (1/8) [0], mkNote .B 3 none (1/8) [0]],
           some (mkNote .C 4 none (1/4) []), []))) ∧
    (([mkNote .C 4 none (1/8) [0], mkNote .B 3 none (1/8) [0]].map
        Note.quarterLength).sum + (mkNote .C 4 none (1/4) []).quarterLength
      = (mkNote .C 4 none (1/2) [0]).quarterLength) := by
  have h : mordentRealize mordentDown 0 (mkNote .C 4 none (1/2) [0])
      (some ks0) none false
      = .ok (mkNote .C 4 none (1/2) [0],
          ([mkNote .C 4 none (1/8) [0], mkNote .B 3 none (1/8) [0]],
           some (mkNote .C 4 none (1/4) []), [])) := by
    norm_num +decide [mordentRealize, mordentGetSize, mordentDown, mkNote, ks0,
      genericSecond, stepNum, stepOfNum, intervalBetween, Pitch.diatonicIndex,
      Pitch.ps, natPs, stepPc, alterOr0, KeySignature.accidentalByStep,
      sharpOrder, flatOrder, alterOfAccidentalName, accidentalNameTable,
      fillListOfRealizedNotes, transposePitchBy, enumerateMap]
  exact ⟨h, (mordent_duration_sum _ _ _ _ _ _ _ _ _ _ h).1⟩

/-- C7: with inPlace = False, no variant's realize mutates the source
event — the post-call state of the source (first component of the result)
is the unchanged input, so its duration and expression list are intact;
the ornament is removed only from the returned copy. -/
theorem realize_outOfPlace_preserves_source (m : MordentCfg) (t : TrillCfg)
    (tn : TurnCfg) (a : AppoggiaturaCfg) (tr : TremoloCfg) (selfId : ℕ)
    (src : Note) (ks ctx : Option KeySignature) :
    (∀ r, mordentRealize m selfId src ks ctx false = .ok r → r.1 = src) ∧
    (∀ r, trillRealize t selfId src ks ctx false = .ok r → r.1 = src) ∧
    (∀ r, turnRealize tn selfId src ks ctx false = .ok r → r.1 = src) ∧
    (∀ r, appoggiaturaRealize a selfId src ks ctx false = .ok r → r.1 = src) ∧
    (∀ r, tremoloRealize tr selfId src ks ctx false = .ok r → r.1 = src) := by
  refine ⟨fun r h => ?_, fun r h => ?_, fun r h => ?_, fun r h => ?_,
    fun r h => ?_⟩
  · simp only [mordentRealize] at h
    simp only [Bool.false_eq_true, false_and, if_false, ite_false] at h
    repeat' split at h
    all_goals try exact Except.noConfusion h
    all_goals injection h with h
    all_goals rw [← h]
  · simp only [trillRealize] at h
    simp only [Bool.false_eq_true, false_and, if_false, ite_false] at h
    repeat' split at h
    all_goals try exact Except.noConfusion h
    all_goals injection h with h
    all_goals rw [← h]
  · simp only [turnRealize] at h
    simp only [Bool.false_eq_true, false_and, if_false, ite_false] at h
    repeat' split at h
    all_goals try exact Except.noConfusion h
    all_goals injection h with h
    all_goals rw [← h]
  · simp only [appoggiaturaRealize] at h
    simp only [Bool.false_eq_true, false_and, if_false, ite_false] at h
    repeat' split at h
    all_goals try exact Except.noConfusion h
    all_goals injection h with h
    all_goals rw [← h]
  · simp only [tremoloRealize] at h
    injection h with h
    rw [← h]
    rfl

/-- C7 witness: the non-mutation at a concrete input where the realize
result is known to be ok. -/
theorem realize_outOfPlace_preserves_source_witness :
    (mordentRealize mordentDown 0 (mkNote .C 4 none (1/2) [0]) (some ks0)
        none false
      = .ok (mkNote .C 4 none (1/2) [0],
          ([mkNote .C 4 none (1/8) [0], mkNote .B 3 none (1/8) [0]],
           some (mkNote .C 4 none (1/4) []), []))) ∧
    ((mkNote .C 4 none (1/2) [0],
        ([mkNote .C 4 none (1/8) [0], mkNote .B 3 none (1/8) [0]],
         some (mkNote .C 4 none (1/4) []),
         ([] : List Note))).1 = mkNote .C 4 none (1/2) [0]) := by
  have h : mordentRealize mordentDown 0 (mkNote .C 4 none (1/2) [0])
      (some ks0) none false
      = .ok (mkNote .C 4 none (1/2) [0],
          ([mkNote .C 4 none (1/8) [0], mkNote .B 3 none (1/8) [0]],
           some (mkNote .C 4 none (1/4) []), [])) := by
    norm_num +decide [mordentRealize, mordentGetSize, mordentDown, mkNote, ks0,
      genericSecond, stepNum, stepOfNum, intervalBetween, Pitch.diatonicIndex,
      Pitch.ps, natPs, stepPc, alterOr0, KeySignature.accidentalByStep,
      sharpOrder, flatOrder, alterOfAccidentalName, accidentalNameTable,
      fillListOfRealizedNotes, transposePitchBy, enumerateMap]
  exact ⟨h, (realize_outOfPlace_preserves_source mordentDown trillDefault
    turnNoDelay appoggiaturaDown tremoloDefault 0
    (mkNote .C 4 none (1/2) [0]) (some ks0) none).1 _ h⟩

/-- C4 amended: when keySig is passed explicitly, `getSize` and
`resolveOrnamentalPitches` (all families) and the Mordent, Trill,
Appoggiatura and Tremolo realizations never consult the event's context
(their results are independent of the context key signature).
`Turn.realize`, however, depends on the context exactly through the
context-derived key signature (zero-sharps default), which it uses for
the 1st/3rd sub-note accidental fill even when keySig is passed; the
passed keySig affects only the turn's transposition intervals. -/
theorem keySig_argument_usage (m : MordentCfg) (t : TrillCfg) (tn : TurnCfg)
    (a : AppoggiaturaCfg) (tr : TremoloCfg) (selfId : ℕ) (src : Note)
    (ks : KeySignature) (c c2 : Option KeySignature) (ip : Bool)
    (which : String) :
    mordentGetSize m src (some ks) c = mordentGetSize m src (some ks) c2 ∧
    trillGetSize t src (some ks) c = trillGetSize t src (some ks) c2 ∧
    turnGetSize tn src (some ks) c which
      = turnGetSize tn src (some ks) c2 which ∧
    mordentResolveOrnamentalPitches m src (some ks) c
      = mordentResolveOrnamentalPitches m src (some ks) c2 ∧
    trillResolveOrnamentalPitches t src (some ks) c
      = trillResolveOrnamentalPitches t src (some ks) c2 ∧
    turnResolveOrnamentalPitches tn src (some ks) c
      = turnResolveOrnamentalPitches tn src (some ks) c2 ∧
    mordentRealize m selfId src (some ks) c ip
      = mordentRealize m selfId src (some ks) c2 ip ∧
    trillRealize t selfId src (some ks) c ip
      = trillRealize t selfId src (some ks) c2 ip ∧
    appoggiaturaRealize a selfId src (some ks) c ip
      = appoggiaturaRealize a selfId src (some ks) c2 ip ∧
    tremoloRealize tr selfId src (some ks) c ip
      = tremoloRealize tr selfId src (some ks) c2 ip ∧
    turnRealize tn selfId src (some ks) c ip
      = turnRealize tn selfId src (some ks) (some (c.getD { sharps := 0 })) ip := by
  refine ⟨rfl, rfl, rfl, rfl, rfl, rfl, rfl, rfl, rfl, rfl, ?_⟩
  cases c <;> rfl

/-- C4 counterexample: a Turn on a B4 whole note realized with an explicit
zero-sharps keySig, inside a five-sharps context: the first turn note
comes out C sharp — its key-signature-derived accidental is taken from the
five-sharps context key signature, not from the passed zero-sharps keySig
(under which the C would carry no accidental). -/
theorem turn_fill_ignores_passed_keySig :
    turnRealize turnNoDelay 0 (mkNote .B 4 none 1 []) (some ks0) (some ks5)
        false
      = .ok (mkNote .B 4 none 1 [],
          ([], none, [mkNote .C 5 (some 1) (1/4) [], mkNote .B 4 none (1/4) [],
                      mkNote .A 4 (some 1) (1/4) [], mkNote .B 4 none (1/4) []])) ∧
    ks0.accidentalByStep .C = none ∧ ks5.accidentalByStep .C = some 1 := by
  refine ⟨?_, ?_, ?_⟩
  · norm_num +decide [turnRealize, turnGetSize, turnRemainderDuration,
      turnNoDelay, mkNote, ks0, ks5, genericSecond, stepNum, stepOfNum,
      intervalBetween, Pitch.diatonicIndex, Pitch.ps, natPs, stepPc, alterOr0,
      KeySignature.accidentalByStep, sharpOrder, flatOrder,
      alterOfAccidentalName, accidentalNameTable, transposePitchBy,
      enumerateMap]
  · norm_num [KeySignature.accidentalByStep, ks0]
  · norm_num +decide [KeySignature.accidentalByStep, ks5, sharpOrder]

/-- C3 amended: in every Turn realization that does not raise, the delay
resolves to a remainder duration (NO_DELAY gives 0, DEFAULT_DELAY half the
duration, an explicit quarter length that value); the FOUR turn-note
durations plus the delay remainder sum exactly to the original duration
(not three turn notes plus the delay, as claimed); the returned main event
carries exactly the remainder duration; and when the turn duration exceeds
four configured quarter lengths the fourth note absorbs the slack. -/
theorem turn_duration_sum (tn : TurnCfg) (selfId : ℕ) (src : Note)
    (ks ctx : Option KeySignature) (ip : Bool) (sa : Note)
    (pre post : List Note) (mo : Option Note)
    (h : turnRealize tn selfId src ks ctx ip = .ok (sa, (pre, mo, post))) :
    (tn.delay = .noDelay →
      turnRemainderDuration tn.delay src.quarterLength = 0) ∧
    (tn.delay = .defaultDelay →
      turnRemainderDuration tn.delay src.quarterLength
        = src.quarterLength / 2) ∧
    (∀ q, tn.delay = .ql q →
      turnRemainderDuration tn.delay src.quarterLength = q) ∧
    ((post.map Note.quarterLength).sum
        + turnRemainderDuration tn.delay src.quarterLength
      = src.quarterLength) ∧
    (∀ rem, mo = some rem →
      rem.quarterLength = turnRemainderDuration tn.delay src.quarterLength) ∧
    (4 * tn.quarterLength
        < src.quarterLength - turnRemainderDuration tn.delay src.quarterLength →
      post.map Note.quarterLength
        = [tn.quarterLength, tn.quarterLength, tn.quarterLength,
           src.quarterLength - turnRemainderDuration tn.delay src.quarterLength
             - 3 * tn.quarterLength]) := by
  have key : ((post.map Note.quarterLength).sum
        + turnRemainderDuration tn.delay src.quarterLength
      = src.quarterLength) ∧
    (∀ rem, mo = some rem →
      rem.quarterLength = turnRemainderDuration tn.delay src.quarterLength) ∧
    (4 * tn.quarterLength
        < src.quarterLength - turnRemainderDuration tn.delay src.quarterLength →
      post.map Note.quarterLength
        = [tn.quarterLength, tn.quarterLength, tn.quarterLength,
           src.quarterLength - turnRemainderDuration tn.delay src.quarterLength
             - 3 * tn.quarterLength]) := by
    by_cases h2 : src.quarterLength = 0
    · simp [turnRealize, h2] at h
    cases hg1 : turnGetSize tn src ks ctx
        (if tn.isInverted = true then "lower" else "upper") with
    | error e =>
      by_cases h7 : src.quarterLength
          - turnRemainderDuration tn.delay src.quarterLength
          < 4 * tn.quarterLength
      · have h5 : tn.autoScale = true := by
          by_contra hb
          simp only [Bool.not_eq_true] at hb
          simp [turnRealize, h2, h7, hb] at h
        simp [turnRealize, h2, h7, h5, hg1] at h
      · simp [turnRealize, h2, h7, hg1] at h
    | ok itv1 =>
    cases hg2 : turnGetSize tn src ks ctx
        (if tn.isInverted = true then "upper" else "lower") with
    | error e =>
      by_cases h7 : src.quarterLength
          - turnRemainderDuration tn.delay src.quarterLength
          < 4 * tn.quarterLength
      · have h5 : tn.autoScale = true := by
          by_contra hb
          simp only [Bool.not_eq_true] at hb
          simp [turnRealize, h2, h7, hb] at h
        simp [turnRealize, h2, h7, h5, hg1, hg2] at h
      · simp [turnRealize, h2, h7, hg1, hg2] at h
    | ok itv2 =>
    by_cases h7 : src.quarterLength
        - turnRemainderDuration tn.delay src.quarterLength
        < 4 * tn.quarterLength
    · have h5 : tn.autoScale = true := by
        by_contra hb
        simp only [Bool.not_eq_true] at hb
        simp [turnRealize, h2, h7, hb] at h
      have h8 : ¬ (4 * tn.quarterLength
          < src.quarterLength - turnRemainderDuration tn.delay src.quarterLength) :=
        fun hc => absurd (lt_trans hc h7) (lt_irrefl _)
      by_cases h6 : turnRemainderDuration tn.delay src.quarterLength = 0
      · have h7x := h7
        have h8x := h8
        rw [h6, sub_zero] at h7x h8x
        simp [turnRealize, h2, h7, h7x, h5, h8, h8x, h6, hg1, hg2,
          enumerateMap] at h
        obtain ⟨hsa, hpre, hmo, hpost⟩ := h
        subst hpost
        refine ⟨?_, ?_, ?_⟩
        · simp [apply_ite Note.quarterLength]
          all_goals ((try split_ifs) <;>
            (try simp only [Option.getD_none, Option.getD_some]) <;> linarith)
        · intro rem hr
          rw [← hmo] at hr
          exact absurd hr (by simp)
        · intro hc
          exact absurd hc h8
      · simp [turnRealize, h2, h7, h5, h8, h6, hg1, hg2, enumerateMap] at h
        obtain ⟨hsa, hpre, hmo, hpost⟩ := h
        subst hpost
        refine ⟨?_, ?_, ?_⟩
        · simp [apply_ite Note.quarterLength]
          all_goals ((try split_ifs) <;>
            (try simp only [Option.getD_none, Option.getD_some]) <;> linarith)
        · intro rem hr
          rw [← hmo] at hr
          simp only [Option.some.injEq] at hr
          rw [← hr]
        · intro hc
          exact absurd hc h8
    · by_cases h8 : 4 * tn.quarterLength
          < src.quarterLength - turnRemainderDuration tn.delay src.quarterLength
      · by_cases h6 : turnRemainderDuration tn.delay src.quarterLength = 0
        · have h7x := h7
          have h8x := h8
          rw [h6, sub_zero] at h7x h8x
          simp [turnRealize, h2, h7, h7x, h8, h8x, h6, hg1, hg2,
            enumerateMap] at h
          obtain ⟨hsa, hpre, hmo, hpost⟩ := h
          subst hpost
          refine ⟨?_, ?_, ?_⟩
          · simp [apply_ite Note.quarterLength]
            all_goals ((try split_ifs) <;>
              (try simp only [Option.getD_none, Option.getD_some]) <;> linarith)
          · intro rem hr
            rw [← hmo] at hr
            exact absurd hr (by simp)
          · intro hc
            simp [apply_ite Note.quarterLength]
            all_goals ((try split_ifs) <;> (try simp_all) <;> (try linarith))
        · simp [turnRealize, h2, h7, h8, h6, hg1, hg2, enumerateMap] at h
          obtain ⟨hsa, hpre, hmo, hpost⟩ := h
          subst hpost
          refine ⟨?_, ?_, ?_⟩
          · simp [apply_ite Note.quarterLength]
            all_goals ((try split_ifs) <;>
              (try simp only [Option.getD_none, Option.getD_some]) <;> linarith)
          · intro rem hr
            rw [← hmo] at hr
            simp only [Option.some.injEq] at hr
            rw [← hr]
          · intro hc
            simp [apply_ite Note.quarterLength]
            all_goals ((try split_ifs) <;> (try simp_all) <;> (try linarith))
      · have heq : src.quarterLength
            - turnRemainderDuration tn.delay src.quarterLength
            = 4 * tn.quarterLength :=
          le_antisymm (not_lt.mp h8) (not_lt.mp h7)
        by_cases h6 : turnRemainderDuration tn.delay src.quarterLength = 0
        · have h7x := h7
          have h8x := h8
          rw [h6, sub_zero] at h7x h8x
          simp [turnRealize, h2, h7, h7x, h8, h8x, h6, hg1, hg2,
            enumerateMap] at h
          obtain ⟨hsa, hpre, hmo, hpost⟩ := h
          subst hpost
          refine ⟨?_, ?_, ?_⟩
          · simp [apply_ite Note.quarterLength]
            all_goals ((try split_ifs) <;>
              (try simp only [Option.getD_none, Option.getD_some]) <;> linarith)
          · intro rem hr
            rw [← hmo] at hr
            exact absurd hr (by simp)
          · intro hc
            exact absurd hc h8
        · simp [turnRealize, h2, h7, h8, h6, hg1, hg2, enumerateMap] at h
          obtain ⟨hsa, hpre, hmo, hpost⟩ := h
          subst hpost
          refine ⟨?_, ?_, ?_⟩
          · simp [apply_ite Note.quarterLength]
            all_goals ((try split_ifs) <;>
              (try simp only [Option.getD_none, Option.getD_some]) <;> linarith)
          · intro rem hr
            rw [← hmo] at hr
            simp only [Option.some.injEq] at hr
            rw [← hr]
          · intro hc
            exact absurd hc h8
  refine ⟨?_, ?_, ?_, key.1, key.2.1, key.2.2⟩
  · intro hd
    rw [hd]
    rfl
  · intro hd
    rw [hd]
    rfl
  · intro q hd
    rw [hd]
    rfl

/-- C3 counterexample: a default-delayed Turn on a C4 whole-beat note:
the remainder is 1/2 and the four turn notes are 1/8 each, so three
turn-note durations plus the delay give 7/8, not the original duration 1;
it is the four turn-note durations plus the delay that sum to 1. -/
theorem turn_three_plus_delay_counterexample :
    turnRealize turnDefaultDelay 0 (mkNote .C 4 none 1 [0]) (some ks0) none
        false
      = .ok (mkNote .C 4 none 1 [0],
          ([], some (mkNote .C 4 none (1/2) []),
           [mkNote .D 4 none (1/8) [], mkNote .C 4 none (1/8) [],
            mkNote .B 3 none (1/8) [], mkNote .C 4 none (1/8) []])) ∧
    (1/8 + 1/8 + 1/8 + 1/2 : ℚ) ≠ 1 ∧
    (1/8 + 1/8 + 1/8 + 1/8 + 1/2 : ℚ) = 1 := by
  refine ⟨?_, by norm_num, by norm_num⟩
  norm_num +decide [turnRealize, turnGetSize, turnRemainderDuration,
    turnDefaultDelay, turnNoDelay, mkNote, ks0, genericSecond, stepNum,
    stepOfNum, intervalBetween, Pitch.diatonicIndex, Pitch.ps, natPs, stepPc,
    alterOr0, KeySignature.accidentalByStep, sharpOrder, flatOrder,
    alterOfAccidentalName, accidentalNameTable, transposePitchBy,
    enumerateMap]

/-- C3 witness: the four-note sum property at the concrete delayed turn. -/
theorem turn_duration_sum_witness :
    (turnRealize turnDefaultDelay 0 (mkNote .C 4 none 1 [0]) (some ks0) none
        false
      = .ok (mkNote .C 4 none 1 [0],
          ([], some (mkNote .C 4 none (1/2) []),
           [mkNote .D 4 none (1/8) [], mkNote .C 4 none (1/8) [],
            mkNote .B 3 none (1/8) [], mkNote .C 4 none (1/8) []]))) ∧
    (([mkNote .D 4 none (1/8) [], mkNote .C 4 none (1/8) [],
       mkNote .B 3 none (1/8) [], mkNote .C 4 none (1/8) []].map
        Note.quarterLength).sum
      + turnRemainderDuration turnDefaultDelay.delay
          (mkNote .C 4 none 1 [0]).quarterLength
      = (mkNote .C 4 none 1 [0]).quarterLength) := by
  have h : turnRealize turnDefaultDelay 0 (mkNote .C 4 none 1 [0]) (some ks0)
      none false
      = .ok (mkNote .C 4 none 1 [0],
          ([], some (mkNote .C 4 none (1/2) []),
           [mkNote .D 4 none (1/8) [], mkNote .C 4 none (1/8) [],
            mkNote .B 3 none (1/8) [], mkNote .C 4 none (1/8) []])) := by
    norm_num +decide [turnRealize, turnGetSize, turnRemainderDuration,
      turnDefaultDelay, turnNoDelay, mkNote, ks0, genericSecond, stepNum,
      stepOfNum, intervalBetween, Pitch.diatonicIndex, Pitch.ps, natPs, stepPc,
      alterOr0, KeySignature.accidentalByStep, sharpOrder, flatOrder,
      alterOfAccidentalName, accidentalNameTable, transposePitchBy,
      enumerateMap]
  exact ⟨h, (turn_duration_sum _ _ _ _ _ _ _ _ _ _ h).2.2.2.1⟩

/-- Accumulation behaviour of the driver loop: the accumulators are
threaded through unchanged and only appended to. -/
theorem realizeLoop_append {E : Type} [DecidableEq E] (hasRealize : E → Bool)
    (realizeFn : E → DEvent E → Option KeySignature →
      (List (DEvent E) × Option (DEvent E) × List (DEvent E)))
    (ks : Option KeySignature) :
    ∀ (fuel : ℕ) (s : DEvent E) (pre post : List (DEvent E)),
      realizeLoop hasRealize realizeFn fuel s ks pre post
        = (pre ++ (realizeLoop hasRealize realizeFn fuel s ks [] []).1,
           (realizeLoop hasRealize realizeFn fuel s ks [] []).2.1,
           post ++ (realizeLoop hasRealize realizeFn fuel s ks [] []).2.2) := by
  intro fuel
  induction fuel with
  | zero =>
    intro s pre post
    simp [realizeLoop]
  | succ n ih =>
    intro s pre post
    cases hexp : s.expressions with
    | nil => simp [realizeLoop, hexp]
    | cons e rest =>
      by_cases hr : hasRealize e
      · cases hm : (realizeFn e s ks).2.1 with
        | none => simp [realizeLoop, hexp, hr, hm]
        | some ns =>
          by_cases hrest : rest = ([] : List E)
          · simp [realizeLoop, hexp, hr, hm, hrest]
          · have l1 := ih { ns with expressions := rest }
              (pre ++ (realizeFn e s ks).1) (post ++ (realizeFn e s ks).2.2)
            have l2 := ih { ns with expressions := rest }
              ((realizeFn e s ks).1) ((realizeFn e s ks).2.2)
            simp [realizeLoop, hexp, hr, hm, hrest, l1, l2, List.append_assoc]
      · by_cases hrest : rest = ([] : List E)
        · simp [realizeLoop, hexp, hr, hrest]
        · have l3 := ih { s with expressions := rest } pre post
          simp [realizeLoop, hexp, hr, hrest, l3]

/-- C9: on an event with attached ornaments the realization driver
terminates (its loop is the total function `realizeLoop` with the fixed
ceiling of 100 iterations) and the final result is the concatenation of
the pre-list accumulator, the remaining event when not consumed, and the
post-list accumulator, in that order; the accumulators are only ever
appended to across iterations. -/
theorem realizeOrnaments_concatenation {E : Type} [DecidableEq E]
    (hasRealize : E → Bool)
    (realizeFn : E → DEvent E → Option KeySignature →
      (List (DEvent E) × Option (DEvent E) × List (DEvent E)))
    (src : DEvent E) (ks : Option KeySignature)
    (hne : src.expressions ≠ []) :
    (∀ (fuel : ℕ) (s : DEvent E) (pre post : List (DEvent E)),
      realizeLoop hasRealize realizeFn fuel s ks pre post
        = (pre ++ (realizeLoop hasRealize realizeFn fuel s ks [] []).1,
           (realizeLoop hasRealize realizeFn fuel s ks [] []).2.1,
           post ++ (realizeLoop hasRealize realizeFn fuel s ks [] []).2.2)) ∧
    realizeOrnamentsD hasRealize realizeFn src ks
      = (realizeLoop hasRealize realizeFn 100 src ks [] []).1
        ++ ((realizeLoop hasRealize realizeFn 100 src ks [] []).2.1).toList
        ++ (realizeLoop hasRealize realizeFn 100 src ks [] []).2.2 := by
  refine ⟨realizeLoop_append hasRealize realizeFn ks, ?_⟩
  simp [realizeOrnamentsD, hne]

/-- C9 witness: the concatenation shape at a concrete one-ornament
event with the demo oracle. -/
theorem realizeOrnaments_concatenation_witness :
    (DEvent.mk 7 [1] : DEvent ℕ).expressions ≠ [] ∧
    realizeOrnamentsD demoHasRealize demoRealizeFn (DEvent.mk 7 [1]) none
      = (realizeLoop demoHasRealize demoRealizeFn 100 (DEvent.mk 7 [1])
            none [] []).1
        ++ ((realizeLoop demoHasRealize demoRealizeFn 100 (DEvent.mk 7 [1])
            none [] []).2.1).toList
        ++ (realizeLoop demoHasRealize demoRealizeFn 100 (DEvent.mk 7 [1])
            none [] []).2.2 :=
  ⟨by decide,
    (realizeOrnaments_concatenation demoHasRealize demoRealizeFn
      (DEvent.mk 7 [1]) none (by decide)).2⟩

/-- Each pass of the trill pair loop appends exactly two notes. -/
theorem foldFill_length (src : Note) (i : Itv) (u : ℚ) :
    ∀ (k : ℕ) (acc : List Note),
      ((List.range k).foldl
        (fun a _ => fillListOfRealizedNotes src a i u) acc).length
        = acc.length + 2 * k := by
  intro k
  induction k with
  | zero => intro acc; simp
  | succ n ih =>
    intro acc
    rw [List.range_succ, List.foldl_append]
    simp only [List.foldl_cons, List.foldl_nil]
    have hf : ∀ l, (fillListOfRealizedNotes src l i u).length = l.length + 2 := by
      intro l
      simp [fillListOfRealizedNotes]
    rw [hf, ih]
    omega

/-- Floor of an even or odd integer halved matches integer division. -/
theorem floor_intCast_div_two (m : ℤ) (hm : 0 ≤ m) :
    ⌊(m : ℚ) / 2⌋ = m / 2 := by
  rcases Int.even_or_odd m with ⟨j, hj⟩ | ⟨j, hj⟩
  · subst hj
    have h1 : ((j + j : ℤ) : ℚ) / 2 = (j : ℚ) := by push_cast; ring
    rw [h1, Int.floor_intCast]
    omega
  · subst hj
    have h1 : ((2 * j + 1 : ℤ) : ℚ) / 2 = (j : ℚ) + 1 / 2 := by push_cast; ring
    have h2 : ⌊(j : ℚ) + 1 / 2⌋ = j := by
      rw [Int.floor_eq_iff]
      constructor
      · norm_num
      · push_cast
        norm_num
    rw [h1, h2]
    omega

/-- An even integer bracketing the floor of d / u gives the duration
bounds and the exact-multiple characterization. -/
theorem even_floor_bounds (d u : ℚ) (hu : 0 < u) (k : ℤ)
    (hk0 : 0 ≤ k) (hke : k % 2 = 0) (hk1 : k ≤ ⌊d / u⌋)
    (hk2 : ⌊d / u⌋ ≤ k + 1) :
    (k : ℚ) * u ≤ d ∧ d < ((k : ℚ) + 2) * u ∧
    ((k : ℚ) * u = d ↔ ∃ j : ℕ, j % 2 = 0 ∧ d = (j : ℚ) * u) := by
  have hb1 : (k : ℚ) ≤ d / u :=
    le_trans (by exact_mod_cast hk1) (Int.floor_le (d / u))
  have hb2 : d / u < (k : ℚ) + 2 := by
    refine lt_of_lt_of_le (Int.lt_floor_add_one (d / u)) ?_
    have : (⌊d / u⌋ : ℚ) + 1 ≤ (k : ℚ) + 2 := by exact_mod_cast by omega
    exact this
  refine ⟨(le_div_iff hu).mp hb1, (div_lt_iff hu).mp hb2, ?_, ?_⟩
  · intro he
    refine ⟨k.toNat, by omega, ?_⟩
    have hcast : ((k.toNat : ℕ) : ℚ) = (k : ℚ) := by
      exact_mod_cast congrArg (Int.cast : ℤ → ℚ) (Int.toNat_of_nonneg hk0)
    rw [hcast, he]
  · rintro ⟨j, hj2, hjd⟩
    have hdu : d / u = (j : ℚ) := by
      rw [hjd]
      field_simp
    have hfl : ⌊d / u⌋ = (j : ℤ) := by
      rw [hdu]
      exact_mod_cast Int.floor_intCast (j : ℤ)
    have hkj : k = (j : ℤ) := by omega
    rw [hjd, hkj]
    push_cast
    ring

/-- Core count-versus-duration relation for the trill pair loop. -/
theorem trill_len_core (d u : ℚ) (hd : 0 < d) (hu0 : 0 < u) (w : ℤ)
    (hw : w = 0 ∨ w = 2) (hn2 : w + 2 ≤ ⌊d / u⌋) (len : ℕ)
    (hlen : (len : ℤ) = 2 * ((pyInt (d / u) - w) / 2)) :
    ((len : ℚ) + (w : ℚ)) * u ≤ d ∧ d < ((len : ℚ) + (w : ℚ) + 2) * u ∧
    (((len : ℚ) + (w : ℚ)) * u = d ↔
      ∃ j : ℕ, j % 2 = 0 ∧ d = (j : ℚ) * u) := by
  have hdu0 : 0 ≤ d / u := le_of_lt (div_pos hd hu0)
  have hpy : pyInt (d / u) = ⌊d / u⌋ := by simp [pyInt, hdu0]
  rw [hpy] at hlen
  have h0 : 0 ≤ (len : ℤ) + w := by omega
  have hke : ((len : ℤ) + w) % 2 = 0 := by omega
  have hk1 : (len : ℤ) + w ≤ ⌊d / u⌋ := by omega
  have hk2 : ⌊d / u⌋ ≤ (len : ℤ) + w + 1 := by omega
  have hb := even_floor_bounds d u hu0 ((len : ℤ) + w) h0 hke hk1 hk2
  have hcast : (((len : ℤ) + w : ℤ) : ℚ) = (len : ℚ) + (w : ℚ) := by
    push_cast
    ring
  rw [hcast] at hb
  exact hb

/-- C2 amended: for every Trill realization that does not raise, with a
positive event duration and a positive configured quarterLength: without
nachschlag the alternation-note count times useQL is at most the source
duration and falls short of it by less than 2 × useQL, with equality
exactly when the duration is an even-integer multiple of useQL; with
nachschlag the same holds for (count + 2) × useQL.  The claimed exact
equality does not hold in general. -/
theorem trill_alternation_duration_bounds (t : TrillCfg) (selfId : ℕ)
    (src : Note) (ks ctx : Option KeySignature) (ip : Bool)
    (sa : Note) (pre post : List Note) (mo : Option Note) (u : ℚ)
    (hd : 0 < src.quarterLength) (hq : 0 < t.quarterLength)
    (h : trillRealize t selfId src ks ctx ip = .ok (sa, (pre, mo, post)))
    (hu : trillUseQL t src.quarterLength = .ok u) :
    (t.nachschlag = false →
      (pre.length : ℚ) * u ≤ src.quarterLength ∧
      src.quarterLength < ((pre.length : ℚ) + 2) * u ∧
      ((pre.length : ℚ) * u = src.quarterLength ↔
        ∃ j : ℕ, j % 2 = 0 ∧ src.quarterLength = (j : ℚ) * u)) ∧
    (t.nachschlag = true →
      ((pre.length : ℚ) + 2) * u ≤ src.quarterLength ∧
      src.quarterLength < ((pre.length : ℚ) + 4) * u ∧
      (((pre.length : ℚ) + 2) * u = src.quarterLength ↔
        ∃ j : ℕ, j % 2 = 0 ∧ src.quarterLength = (j : ℚ) * u)) := by
  have hd0 : ¬ (src.quarterLength = 0) := ne_of_gt hd
  have hana : 0 < u ∧ (t.nachschlag = true → 4 ≤ ⌊src.quarterLength / u⌋)
      ∧ (t.nachschlag = false → 2 ≤ ⌊src.quarterLength / u⌋) := by
    by_cases hc1 : src.quarterLength < 2 * t.quarterLength
    · have hauto : t.autoScale = true := by
        by_contra hb
        simp only [Bool.not_eq_true] at hb
        simp [trillUseQL, hd0, hc1, hb] at hu
      by_cases hn : t.nachschlag = true
      · have hc2 : src.quarterLength < 4 * t.quarterLength := by linarith
        have huv : u = src.quarterLength / 4 := by
          simp [trillUseQL, hd0, hc1, hc2, hauto, hn] at hu
          exact hu.symm
        have hdd : src.quarterLength / u = 4 := by
          rw [huv]
          field_simp
        refine ⟨?_, fun _ => ?_, fun hnf => ?_⟩
        · rw [huv]
          positivity
        · rw [hdd]
          norm_num
        · rw [hn] at hnf
          cases hnf
      · have hnf : t.nachschlag = false := by
          simpa using hn
        have huv : u = src.quarterLength / 2 := by
          simp [trillUseQL, hd0, hc1, hauto, hnf] at hu
          exact hu.symm
        have hdd : src.quarterLength / u = 2 := by
          rw [huv]
          field_simp
        refine ⟨?_, fun hnt => ?_, fun _ => ?_⟩
        · rw [huv]
          positivity
        · rw [hnf] at hnt
          cases hnt
        · rw [hdd]
          norm_num
    · by_cases hn : t.nachschlag = true
      · by_cases hc2 : src.quarterLength < 4 * t.quarterLength
        · have hauto : t.autoScale = true := by
            by_contra hb
            simp only [Bool.not_eq_true] at hb
            simp [trillUseQL, hd0, hc1, hc2, hn, hb] at hu
          have huv : u = src.quarterLength / 4 := by
            simp [trillUseQL, hd0, hc1, hc2, hauto, hn] at hu
            exact hu.symm
          have hdd : src.quarterLength / u = 4 := by
            rw [huv]
            field_simp
          refine ⟨?_, fun _ => ?_, fun hnf => ?_⟩
          · rw [huv]
            positivity
          · rw [hdd]
            norm_num
          · rw [hn] at hnf
            cases hnf
        · have huv : u = t.quarterLength := by
            simp [trillUseQL, hd0, hc1, hc2, hn] at hu
            exact hu.symm
          refine ⟨?_, fun _ => ?_, fun hnf => ?_⟩
          · rw [huv]
            exact hq
          · rw [huv]
            refine Int.le_floor.mpr ?_
            push_cast
            rw [le_div_iff hq]
            linarith [not_lt.mp hc2]
          · rw [hn] at hnf
            cases hnf
      · have hnf : t.nachschlag = false := by
          simpa using hn
        have huv : u = t.quarterLength := by
          simp [trillUseQL, hd0, hc1, hnf] at hu
          exact hu.symm
        refine ⟨?_, fun hnt => ?_, fun _ => ?_⟩
        · rw [huv]
          exact hq
        · rw [hnf] at hnt
          cases hnt
        · rw [huv]
          refine Int.le_floor.mpr ?_
          push_cast
          rw [le_div_iff hq]
          linarith [not_lt.mp hc1]
  obtain ⟨hu0, hfl4, hfl2⟩ := hana
  have hpyfl : pyInt (src.quarterLength / u) = ⌊src.quarterLength / u⌋ := by
    simp [pyInt, le_of_lt (div_pos hd hu0)]
  cases hg : trillGetSize t src (some (ks.getD (ctx.getD { sharps := 0 })))
      ctx with
  | error e => simp [trillRealize, hu, hg] at h
  | ok itv =>
    by_cases hn : t.nachschlag = true
    · refine ⟨fun hff => ?_, fun _ => ?_⟩
      · rw [hn] at hff
        cases hff
      · simp [trillRealize, hu, hg, hn] at h
        obtain ⟨hsa, hpre, hmo, hpost⟩ := h
        have hlen : pre.length = 2 * (pyInt
            (((pyInt (src.quarterLength / u) - 2 : ℤ) : ℚ) / 2)).toNat := by
          rw [← hpre]
          by_cases hs2 : t.setAccidentalFromKeySig = true <;>
            simp [hs2, foldFill_length]
        have hN : 0 ≤ pyInt (src.quarterLength / u) - 2 := by
          rw [hpyfl]
          have := hfl4 hn
          omega
        have hlenz : ((pre.length : ℕ) : ℤ)
            = 2 * ((pyInt (src.quarterLength / u) - 2) / 2) := by
          rw [hlen]
          have hfd : pyInt (((pyInt (src.quarterLength / u) - 2 : ℤ) : ℚ) / 2)
              = (pyInt (src.quarterLength / u) - 2) / 2 := by
            rw [pyInt, if_pos (by positivity)]
            exact floor_intCast_div_two _ hN
          rw [hfd]
          push_cast [Int.toNat_of_nonneg (by omega : 0 ≤ (pyInt
            (src.quarterLength / u) - 2) / 2)]
          ring
        have hcore := trill_len_core src.quarterLength u hd hu0 2
          (Or.inr rfl) (by have := hfl4 hn; omega) pre.length hlenz
        norm_num at hcore
        obtain ⟨b1, b2, b3⟩ := hcore
        refine ⟨b1, ?_, b3⟩
        have hr : ((pre.length : ℚ) + 2 + 2) = ((pre.length : ℚ) + 4) := by
          ring
        rw [hr] at b2
        exact b2
    · have hnf : t.nachschlag = false := by
        simpa using hn
      refine ⟨fun _ => ?_, fun htt => ?_⟩
      · simp [trillRealize, hu, hg, hnf] at h
        obtain ⟨hsa, hpre, hmo, hpost⟩ := h
        have hlen : pre.length = 2 * (pyInt
            (((pyInt (src.quarterLength / u) : ℤ) : ℚ) / 2)).toNat := by
          rw [← hpre]
          by_cases hs2 : t.setAccidentalFromKeySig = true <;>
            simp [hs2, foldFill_length]
        have hN : 0 ≤ pyInt (src.quarterLength / u) := by
          rw [hpyfl]
          have := hfl2 hnf
          omega
        have hlenz : ((pre.length : ℕ) : ℤ)
            = 2 * ((pyInt (src.quarterLength / u) - 0) / 2) := by
          rw [hlen]
          have hfd : pyInt (((pyInt (src.quarterLength / u) : ℤ) : ℚ) / 2)
              = pyInt (src.quarterLength / u) / 2 := by
            rw [pyInt, if_pos (by positivity)]
            exact floor_intCast_div_two _ hN
          rw [hfd]
          push_cast [Int.toNat_of_nonneg (by omega : 0 ≤ pyInt
            (src.quarterLength / u) / 2)]
          omega
        have hcore := trill_len_core src.quarterLength u hd hu0 0
          (Or.inl rfl) (by rw [← hpyfl]; have := hfl2 hnf; omega)
          pre.length hlenz
        norm_num at hcore
        exact hcore
      · rw [hnf] at htt
        cases htt

/-- C2 counterexample to the claimed exact equality: a default trill
(useQL stays 1/8 since 3/8 ≥ 2 × 1/8) on a dotted-quarter note produces
two alternation notes, and 2 × (1/8) = 1/4 ≠ 3/8; the leftover 1/8 is
silently dropped. -/
theorem trill_duration_product_counterexample :
    trillUseQL trillDefault (3/8) = .ok (1/8) ∧
    trillRealize trillDefault 0 (mkNote .C 4 none (3/8) [0]) (some ks0) none
      false = .ok (mkNote .C 4 none (3/8) [0],
        ([mkNote .C 4 none (1/8) [0], mkNote .D 4 none (1/8) [0]],
          none, [])) ∧
    trillDefault.nachschlag = false ∧
    (2 : ℚ) * (1/8) ≠ 3/8 := by
  refine ⟨?_, ?_, rfl, by norm_num⟩
  · norm_num [trillUseQL, trillDefault]
  · norm_num [trillRealize, trillUseQL, trillGetSize, trillDefault, mkNote,
      ks0, genericSecond, stepNum, stepOfNum, intervalBetween,
      Pitch.diatonicIndex, Pitch.ps, natPs, stepPc, alterOr0,
      KeySignature.accidentalByStep, sharpOrder, flatOrder,
      alterOfAccidentalName, accidentalNameTable, pyInt,
      fillListOfRealizedNotes, transposePitchBy, nameWithOctaveEq,
      Itv.reverse, List.range_succ]

/-- Witness for the trill duration bounds: a default trill on a half
note yields four alternation notes of 1/8 each, meeting the bounds with
equality. -/
theorem trill_alternation_duration_bounds_witness :
    (0:ℚ) < 1/2 ∧ (0:ℚ) < trillDefault.quarterLength ∧
    ((([mkNote .C 4 none (1/8) [0], mkNote .D 4 none (1/8) [0],
        mkNote .C 4 none (1/8) [0], mkNote .D 4 none (1/8) [0]] :
        List Note).length : ℚ) * (1/8) ≤ 1/2 ∧
      (1/2 : ℚ) < (
        (([mkNote .C 4 none (1/8) [0], mkNote .D 4 none (1/8) [0],
        mkNote .C 4 none (1/8) [0], mkNote .D 4 none (1/8) [0]] :
        List Note).length : ℚ) + 2) * (1/8) ∧
      ((([mkNote .C 4 none (1/8) [0], mkNote .D 4 none (1/8) [0],
        mkNote .C 4 none (1/8) [0], mkNote .D 4 none (1/8) [0]] :
        List Note).length : ℚ) * (1/8) = 1/2 ↔
        ∃ j : ℕ, j % 2 = 0 ∧ (1/2 : ℚ) = (j : ℚ) * (1/8))) := by
  have hreal : trillRealize trillDefault 0 (mkNote .C 4 none (1/2) [0])
      (some ks0) none false = .ok (mkNote .C 4 none (1/2) [0],
        ([mkNote .C 4 none (1/8) [0], mkNote .D 4 none (1/8) [0],
          mkNote .C 4 none (1/8) [0], mkNote .D 4 none (1/8) [0]],
          none, [])) := by
    norm_num [trillRealize, trillUseQL, trillGetSize, trillDefault, mkNote,
      ks0, genericSecond, stepNum, stepOfNum, intervalBetween,
      Pitch.diatonicIndex, Pitch.ps, natPs, stepPc, alterOr0,
      KeySignature.accidentalByStep, sharpOrder, flatOrder,
      alterOfAccidentalName, accidentalNameTable, pyInt,
      fillListOfRealizedNotes, transposePitchBy, nameWithOctaveEq,
      Itv.reverse, List.range_succ, show ((2:ℤ).toNat = 2) from rfl]
  have hu : trillUseQL trillDefault (1/2) = .ok (1/8) := by
    norm_num [trillUseQL, trillDefault]
  refine ⟨by norm_num, by norm_num [trillDefault], ?_⟩
  exact (trill_alternation_duration_bounds trillDefault 0
    (mkNote .C 4 none (1/2) [0]) (some ks0) none false
    (mkNote .C 4 none (1/2) [0])
    [mkNote .C 4 none (1/8) [0], mkNote .D 4 none (1/8) [0],
      mkNote .C 4 none (1/8) [0], mkNote .D 4 none (1/8) [0]] [] none (1/8)
    (by norm_num [mkNote]) (by norm_num [trillDefault]) hreal hu).1 rfl

end Music21
